import Mathlib

/-!
Verification development for the UK-charts-to-Spotify matching core.

Strings from the JavaScript source are modelled as `List Char`; JavaScript
numbers are modelled as `ℚ` (scores, similarities) and `ℕ`/`ℤ` (lengths,
popularity, years).  The implicit wall-clock "current year" read by
`new Date().getFullYear()` inside `selectBestMatch` is passed as an explicit
`currentYear : ℤ` parameter, as the specification's data-model invariant
describes.  Network calls are modelled by an oracle
`search : List Char → Except (List Char) (List Track)` mapping a query to
either a transport error message or a list of (already field-mapped)
candidate tracks.
-/

/-- One character of lookahead prefix matching: does `needle` occur at the
head of `hay`?  (Model of the position-wise part of JavaScript
`String.prototype.includes`.) -/
def matchesAt : List Char → List Char → Bool
  | _, [] => true
  | [], _ :: _ => false
  | c :: hay, n :: needle => if c = n then matchesAt hay needle else false

/-- `hasSub hay needle` models JavaScript `hay.includes(needle)`:
`needle` occurs contiguously somewhere in `hay`. -/
def hasSub : List Char → List Char → Bool
  | [], needle => matchesAt [] needle
  | c :: rest, needle => matchesAt (c :: rest) needle || hasSub rest needle

/-- Model of JavaScript `toLowerCase()` (ASCII range, which covers the
chart data this program handles). -/
def toLowerList (s : List Char) : List Char := s.map Char.toLower

/-- Model of JavaScript `trim()`: drop leading and trailing whitespace. -/
def trimList (s : List Char) : List Char :=
  ((s.dropWhile Char.isWhitespace).reverse.dropWhile Char.isWhitespace).reverse

/-- JavaScript word character (`\w`, i.e. `[A-Za-z0-9_]`), used for the
`\b` word-boundary semantics of the stop-word regex. -/
def isWordChar (c : Char) : Bool := c.isAlphanum || c = '_'

/-- If `w` is a prefix of `s` and the regex word boundary `\b` holds right
after it (end of string, or next character is not a word character), return
the remainder of `s`; otherwise `none`. -/
def dropWordIfBoundary : List Char → List Char → Option (List Char)
  | [], [] => some []
  | [], c :: s => if isWordChar c then none else some (c :: s)
  | _ :: _, [] => none
  | w :: ws, c :: s => if w = c then dropWordIfBoundary ws s else none

/-- The stop-word alternatives of the source regex
`\b(the|a|an|and|or|but|in|on|at|to|for|of|with|by)\b`, in source order
(JavaScript alternation tries them left to right). -/
def stopWords : List (List Char) :=
  ["the".data, "a".data, "an".data, "and".data, "or".data, "but".data,
   "in".data, "on".data, "at".data, "to".data, "for".data, "of".data,
   "with".data, "by".data]

/-- Try the stop-word alternatives in order at the head of `s`; on the first
alternative that matches with a trailing word boundary, return the rest of
`s` after the matched word. -/
def dropStopWord : List (List Char) → List Char → Option (List Char)
  | [], _ => none
  | w :: ws, s =>
    match dropWordIfBoundary w s with
    | some rest => some rest
    | none => dropStopWord ws s

/-- Fuel-indexed scan implementing the global regex replace
`str.replace(/\b(the|a|...|by)\b/g, '')`.  `prevIsWord` records whether the
previous character of the original string was a word character (for the
leading `\b`); after a removed stop word the previous character is the last
letter of that word, hence a word character.  Every recursive call strictly
shortens the list, so fuel `s.length` (as supplied by `stripStopWords`)
never runs out. -/
def stripStopWordsF : ℕ → Bool → List Char → List Char
  | 0, _, s => s
  | _ + 1, _, [] => []
  | fuel + 1, prevIsWord, c :: rest =>
    if prevIsWord then c :: stripStopWordsF fuel (isWordChar c) rest
    else
      match dropStopWord stopWords (c :: rest) with
      | some rest' => stripStopWordsF fuel true rest'
      | none => c :: stripStopWordsF fuel (isWordChar c) rest

/-- Global removal of stand-alone stop words, per the source regex. -/
def stripStopWords (s : List Char) : List Char := stripStopWordsF s.length false s

/-- The cleaning step of `calculateSimilarity`:
`str.replace(/\b(the|a|an|and|or|but|in|on|at|to|for|of|with|by)\b/g, '').trim()`. -/
def cleanStr (s : List Char) : List Char := trimList (stripStopWords s)

/-- One row step of the Levenshtein dynamic program of
`levenshteinDistance` (source lines 332–344): `c` is the current character
of `str2` (`str2.charAt(i-1)`), the first list argument walks the remaining
characters of `str1`, the second list is the previous matrix row from the
diagonal cell onward (`matrix[i-1][j-1] :: matrix[i-1][j] :: …`), and the
`ℕ` argument is the cell to the left (`matrix[i][j-1]`). -/
def levenshteinRowStep (c : Char) : List Char → List ℕ → ℕ → List ℕ
  | [], _, _ => []
  | _ :: _, [], _ => []
  | _ :: _, [_], _ => []
  | x :: xs, pd :: up :: rest, left =>
    let v := if c = x then pd else Nat.min (pd + 1) (Nat.min (left + 1) (up + 1))
    v :: levenshteinRowStep c xs (up :: rest) v

/-- Build matrix row `i` from row `i-1`: the first cell is `matrix[i][0] = i`
(source line 325, here obtained as `matrix[i-1][0] + 1`), the rest follows
the recurrence of source lines 332–344. -/
def levenshteinNextRow (c : Char) (s1 : List Char) (prev : List ℕ) : List ℕ :=
  (prev.headD 0 + 1) :: levenshteinRowStep c s1 prev (prev.headD 0 + 1)

/-- `levenshteinDistance(str1, str2)` of the source: row-by-row evaluation of
the classic edit-distance matrix, returning `matrix[str2.length][str1.length]`
(the last cell of the last row).  Row 0 is `[0, 1, …, str1.length]`
(source lines 328–330). -/
def levenshteinDistance (str1 str2 : List Char) : ℕ :=
  (str2.foldl (fun prev c => levenshteinNextRow c str1 prev)
    (List.range (str1.length + 1))).getLastD 0

/-- Reference recursive definition of Levenshtein distance (head recursion;
insert/delete/substitute at unit cost).  Used only in proofs: the matrix
program `levenshteinDistance` is proved equal to `lev` on the reversed
strings. -/
def lev : List Char → List Char → ℕ
  | [], ys => ys.length
  | x :: xs, [] => (x :: xs).length
  | x :: xs, y :: ys =>
    if x = y then lev xs ys
    else 1 + Nat.min (lev xs ys) (Nat.min (lev xs (y :: ys)) (lev (x :: xs) ys))

/-- `calculateSimilarity(str1, str2)` of the source (lines 300–313): clean
both strings, order them into longer/shorter by cleaned length, and return
`(longer.length - editDistance) / longer.length` (1.0 when `longer` is
empty). -/
def calculateSimilarity (str1 str2 : List Char) : ℚ :=
  let clean1 := cleanStr str1
  let clean2 := cleanStr str2
  let longer := if clean2.length < clean1.length then clean1 else clean2
  let shorter := if clean2.length < clean1.length then clean2 else clean1
  if longer.length = 0 then 1
  else ((longer.length : ℚ) - (levenshteinDistance longer shorter : ℚ)) / (longer.length : ℚ)

/-- One mapped Spotify search result, with the fields `searchTracks` projects
out of the raw API item that are consumed by the matching logic.  The
pass-through fields (uri, album name, artwork, duration, preview and external
links) are opaque to scoring and omitted. -/
structure Track where
  name : List Char
  artist : List Char
  popularity : ℕ
  explicit : Bool
  album_type : List Char
  album_release_date : Option (List Char)
  deriving DecidableEq, Repr

/-- JavaScript `parseInt`: skip leading whitespace, optional sign, then the
maximal digit prefix; `none` models `NaN` (no digits). -/
def parseDigits (s : List Char) : Option ℕ :=
  let ds := s.takeWhile Char.isDigit
  if ds = [] then none
  else some (ds.foldl (fun acc c => acc * 10 + (c.toNat - '0'.toNat)) 0)

/-- Model of `parseInt` on the strings this program feeds it. -/
def parseIntM (s : List Char) : Option ℤ :=
  match s.dropWhile Char.isWhitespace with
  | '-' :: rest => (parseDigits rest).map (fun n => -(n : ℤ))
  | '+' :: rest => (parseDigits rest).map (fun n => (n : ℤ))
  | rest => (parseDigits rest).map (fun n => (n : ℤ))

/-- Recency term of the scoring (source lines 255–261): +3 when the release
year (`parseInt` of the date up to the first '-') is at least
`currentYear - 10`; 0 when the date is absent or unparsable (a `NaN`
comparison is false in JavaScript). -/
def recencyBonus (currentYear : ℤ) (track : Track) : ℚ :=
  match track.album_release_date with
  | none => 0
  | some d =>
    match parseIntM (d.takeWhile (fun c => !(c = '-'))) with
    | none => 0
    | some releaseYear => if currentYear - 10 ≤ releaseYear then 3 else 0

/-- Condition of the cover/tribute penalty (source lines 268–270): the
lower-cased display name contains "cover", "tribute", "karaoke" or
"instrumental", or the lower-cased primary artist contains "cover" or
"tribute".  Note the artist is *not* checked for "karaoke"/"instrumental". -/
def coverCond (titleLower artistLower : List Char) : Bool :=
  hasSub titleLower ("cover".data) || hasSub titleLower ("tribute".data) ||
  hasSub titleLower ("karaoke".data) || hasSub titleLower ("instrumental".data) ||
  hasSub artistLower ("cover".data) || hasSub artistLower ("tribute".data)

/-- Condition of the remix/dance penalty (source lines 275–276): the
lower-cased display name contains "party", "dance", "remix" or "mix". -/
def remixCond (titleLower : List Char) : Bool :=
  hasSub titleLower ("party".data) || hasSub titleLower ("dance".data) ||
  hasSub titleLower ("remix".data) || hasSub titleLower ("mix".data)

/-- Per-candidate score of `selectBestMatch` (source lines 228–283), with the
terms in source accumulation order: popularity, title similarity × 20,
artist similarity × 15, album-type bonus, non-explicit bonus, recency bonus,
cover/tribute penalty (−30), remix/dance penalty (−20). -/
def score (currentYear : ℤ) (track : Track)
    (originalTitle originalArtist : List Char) : ℚ :=
  (track.popularity : ℚ)
  + calculateSimilarity (toLowerList originalTitle) (toLowerList track.name) * 20
  + calculateSimilarity (toLowerList originalArtist) (toLowerList track.artist) * 15
  + (if track.album_type = ("album".data) then 10
     else if track.album_type = ("single".data) then 5 else 0)
  + (if track.explicit then 0 else 5)
  + recencyBonus currentYear track
  + (if coverCond (toLowerList track.name) (toLowerList track.artist) then -30 else 0)
  + (if remixCond (toLowerList track.name) then -20 else 0)

/-- Sort order used on `(index, score)` pairs: the source sorts with the
comparator `(a, b) => b.score - a.score`, i.e. descending score, and
JavaScript `Array.prototype.sort` is stable, so ties keep the original
search-result order. -/
def byScoreDesc : (ℕ × ℚ) → (ℕ × ℚ) → Prop := fun p q => q.2 ≤ p.2

instance : DecidableRel byScoreDesc := fun p q => inferInstanceAs (Decidable (q.2 ≤ p.2))

/-- `selectBestMatch(tracks, originalTitle, originalArtist)` of the source
(lines 222–292): return 0 for lists of length 0 or 1; otherwise score every
candidate, stably sort by descending score, and return the original index
of the first element. -/
def selectBestMatch (currentYear : ℤ) (tracks : List Track)
    (originalTitle originalArtist : List Char) : ℕ :=
  if tracks.length = 0 then 0
  else if tracks.length = 1 then 0
  else
    let scoredTracks := tracks.enum.map
      (fun p => (p.1, score currentYear p.2 originalTitle originalArtist))
    let sorted := List.insertionSort byScoreDesc scoredTracks
    (sorted.headD (0, 0)).1

/-! ### Search-query fallback rewrite (`searchTracks`, source lines 173–185)

The source rewrites the failed structured query with
`query.replace(/track:"([^"]*)" artist:"([^"]*)"/, '$1 $2')` (first match
only).  Because each `[^"]*` group may not contain a quote while the literal
that follows it starts with one, the regex engine's greedy capture is forced:
each group is exactly the maximal run of non-quote characters.  The matcher
below implements this deterministic reading. -/

/-- Not a double quote (the `[^"]` character class). -/
def notQuote (c : Char) : Bool := if c = '"' then false else true

/-- Literal regex fragment `track:"`. -/
def trackLit : List Char := "track:\"".data

/-- Literal regex fragment `" artist:"`. -/
def artistLit : List Char := "\" artist:\"".data

/-- Literal regex fragment `"` (the closing quote). -/
def quoteLit : List Char := "\"".data

/-- Drop a literal from the front of a string, if present. -/
def dropLit : List Char → List Char → Option (List Char)
  | [], s => some s
  | _ :: _, [] => none
  | c :: l, d :: s => if c = d then dropLit l s else none

/-- Match the whole pattern `track:"([^"]*)" artist:"([^"]*)"` at the head of
`s`, returning the two captures and the remainder after the match. -/
def matchTrackArtistAt (s : List Char) : Option (List Char × List Char × List Char) :=
  match dropLit trackLit s with
  | none => none
  | some s1 =>
    match dropLit artistLit (s1.dropWhile notQuote) with
    | none => none
    | some s2 =>
      match dropLit quoteLit (s2.dropWhile notQuote) with
      | none => none
      | some s3 => some (s1.takeWhile notQuote, s2.takeWhile notQuote, s3)

/-- Find the leftmost match of the pattern in `q`: returns
`(before, title, artist, after)` for the first position where
`matchTrackArtistAt` succeeds. -/
def findTrackArtist : List Char → Option (List Char × List Char × List Char × List Char)
  | [] => none
  | c :: rest =>
    match matchTrackArtistAt (c :: rest) with
    | some (t, a, after) => some ([], t, a, after)
    | none =>
      match findTrackArtist rest with
      | some (pre, t, a, after) => some (c :: pre, t, a, after)
      | none => none

/-- The `simpleQuery` computed by `searchTracks` (source line 175): replace
the first occurrence of the structured pattern by `$1 $2`; if the pattern
does not occur, the string is returned unchanged (JavaScript `replace`
semantics). -/
def simpleQueryOf (q : List Char) : List Char :=
  match findTrackArtist q with
  | none => q
  | some (pre, t, a, after) => pre ++ t ++ (" ".data) ++ a ++ after

/-- The structured pattern occurs in `q`: there is a decomposition of `q`
around `track:"<t>" artist:"<a>"` with quote-free captures.  This is the
declarative reading of "the query matches the structured pattern". -/
def hasStructuredPattern (q : List Char) : Prop :=
  ∃ pre t a post, ('"' ∉ t) ∧ ('"' ∉ a) ∧
    q = pre ++ trackLit ++ t ++ artistLit ++ a ++ quoteLit ++ post

/-! ### The batch matching pipeline (`/api/match-tracks`, part_000 lines 421–504)

The external search capability is an oracle
`search : List Char → Except (List Char) (List Track)`: for a query it either
fails with a transport-error message or returns the (already field-mapped)
candidate list.  `searchTracks` (part_001 lines 139–213) wraps its entire
body — both the structured attempt and the fallback attempt — in one
`try/catch` whose handler returns `[]`, so it never throws: a transport
error on either call yields the empty candidate list. -/

deriving instance DecidableEq for Except

/-- `searchTracks(query, limit)` of the source, relative to a search oracle.
The result-count limit is absorbed into the oracle.  A transport error on
either network call is caught and becomes `[]` (source lines 209–212). -/
def searchTracksM (search : List Char → Except (List Char) (List Track))
    (query : List Char) : List Track :=
  match search query with
  | .error _ => []
  | .ok tracks =>
    if 0 < tracks.length then tracks
    else
      match search (simpleQueryOf query) with
      | .error _ => []
      | .ok tracks2 => tracks2

/-- One chart entry sent to `/api/match-tracks` (rank, title, artist and the
scraper-built search query). -/
structure MatchEntry where
  position : ℕ
  title : List Char
  artist : List Char
  searchQuery : List Char
  deriving DecidableEq, Repr

/-- One per-entry record pushed onto `matches` by the handler. -/
structure MatchResultM where
  position : ℕ
  title : List Char
  artist : List Char
  searchQuery : List Char
  spotifyMatches : List Track
  selectedMatch : Option ℕ
  hasMatch : Bool
  error : Option (List Char)
  deriving DecidableEq, Repr

/-- The per-entry body of the handler loop (part_000 lines 448–481).  The
`catch` branch of the handler (which would attach `error: error.message`) is
unreachable, because `searchTracks` catches transport errors internally and
resolves with `[]`; hence `error` is always recorded as null. -/
def matchOne (currentYear : ℤ)
    (search : List Char → Except (List Char) (List Track))
    (track : MatchEntry) : MatchResultM :=
  let spotifyTracks := searchTracksM search track.searchQuery
  { position := track.position
    title := track.title
    artist := track.artist
    searchQuery := track.searchQuery
    spotifyMatches := spotifyTracks
    selectedMatch :=
      if 0 < spotifyTracks.length then
        some (selectBestMatch currentYear spotifyTracks track.title track.artist)
      else none
    hasMatch := decide (0 < spotifyTracks.length)
    error := none }

/-- The batched loop of the handler (part_000 lines 444–488): slices of 10
entries are processed in order (the slicing only paces the rate-limit delay).
The fuel argument is the initial list length; every step strictly shortens
the list, so the fuel never runs out. -/
def matchLoop (currentYear : ℤ)
    (search : List Char → Except (List Char) (List Track)) :
    ℕ → List MatchEntry → List MatchResultM
  | _, [] => []
  | 0, _ :: _ => []
  | fuel + 1, t :: ts =>
    ((t :: ts).take 10).map (matchOne currentYear search)
      ++ matchLoop currentYear search fuel ((t :: ts).drop 10)

/-- The full `/api/match-tracks` matching pass over a track list. -/
def matchTracksBatches (currentYear : ℤ)
    (search : List Char → Except (List Char) (List Track))
    (tracks : List MatchEntry) : List MatchResultM :=
  matchLoop currentYear search tracks.length tracks

/-! ### Proof-side auxiliary definitions -/

/-- One single-character edit: insert, delete or substitute one character,
anywhere in the string.  Used to characterise `lev` as a shortest edit
sequence. -/
inductive EStep : List Char → List Char → Prop
  | ins (x : Char) (xs : List Char) : EStep xs (x :: xs)
  | del (x : Char) (xs : List Char) : EStep (x :: xs) xs
  | sub (x y : Char) (xs : List Char) : EStep (x :: xs) (y :: xs)
  | cons (z : Char) {xs ys : List Char} : EStep xs ys → EStep (z :: xs) (z :: ys)

/-- A sequence of `n` single-character edits from `a` to `b`. -/
inductive EChain : List Char → List Char → ℕ → Prop
  | refl (a : List Char) : EChain a a 0
  | step {a b c : List Char} {n : ℕ} : EStep a b → EChain b c n → EChain a c (n + 1)

/-- Row of reference distances for the matrix dynamic program: `r` is the
reversed prefix of `str1` already consumed, `xs` the remaining characters of
`str1`, `u` the reversed prefix of `str2` processed so far; the cells are
`lev` of each successive reversed `str1`-prefix against `u`. -/
def specCells (u : List Char) : List Char → List Char → List ℕ
  | r, [] => [lev r u]
  | r, x :: xs => lev r u :: specCells u (x :: r) xs

/-- The first pair of maximal second component in a list of
`(index, score)` pairs, preferring the earlier element on ties — the head of
a stable descending sort. -/
def firstArgmax : List (ℕ × ℚ) → Option (ℕ × ℚ)
  | [] => none
  | p :: l =>
    match firstArgmax l with
    | none => some p
    | some b => some (if p.2 < b.2 then b else p)

/-- `(index, score)` pairs for a track list, indices starting at `k`. -/
def idxPairs (f : Track → ℚ) : ℕ → List Track → List (ℕ × ℚ)
  | _, [] => []
  | k, tr :: rest => (k, f tr) :: idxPairs f (k + 1) rest

/-! ### Concrete inputs used by scenario theorems and witnesses -/

/-- The Gotye scenario: original chart title. -/
def c3Title : List Char := "SOMEBODY THAT I USED TO KNOW".data

/-- The Gotye scenario: original chart artist. -/
def c3Artist : List Char := "GOTYE".data

/-- The Gotye scenario: the genuine single. -/
def c3Cand0 : Track :=
  { name := "Somebody That I Used to Know".data
    artist := "Gotye".data
    popularity := 70
    explicit := false
    album_type := "single".data
    album_release_date := some ("2011-07-05".data) }

/-- The Gotye scenario: the karaoke cover. -/
def c3Cand1 : Track :=
  { name := "Somebody That I Used To Know - Karaoke Version".data
    artist := "Karaoke Band".data
    popularity := 40
    explicit := false
    album_type := "compilation".data
    album_release_date := some ("2015-01-01".data) }

/-- The score with the cover/tribute penalty term removed; vocabulary for the
amended statement of claim C1 ("the other terms of the score"). -/
def scoreWithoutCover (currentYear : ℤ) (track : Track)
    (originalTitle originalArtist : List Char) : ℚ :=
  (track.popularity : ℚ)
  + calculateSimilarity (toLowerList originalTitle) (toLowerList track.name) * 20
  + calculateSimilarity (toLowerList originalArtist) (toLowerList track.artist) * 15
  + (if track.album_type = ("album".data) then 10
     else if track.album_type = ("single".data) then 5 else 0)
  + (if track.explicit then 0 else 5)
  + recencyBonus currentYear track
  + (if remixCond (toLowerList track.name) then -20 else 0)

/-- Counterexample candidate for claim C1: the primary artist contains
"instrumental" but the display name contains none of the keywords. -/
def c1CexTrack : Track :=
  { name := "Greatest Hits Song".data
    artist := "The Instrumental Ensemble".data
    popularity := 50
    explicit := false
    album_type := "album".data
    album_release_date := some ("2020-01-01".data) }

/-- Witness candidate for the amended claim C1: the display name contains
"karaoke" (and "cover"), so the penalty fires, and only once. -/
def c1WitTrack : Track :=
  { name := "Song Karaoke Cover Version".data
    artist := "Some Band".data
    popularity := 10
    explicit := true
    album_type := "other".data
    album_release_date := none }

/-- A plain candidate used by the batch-matching counterexample/witnesses. -/
def cexTrack : Track :=
  { name := "T".data
    artist := "A".data
    popularity := 10
    explicit := false
    album_type := "album".data
    album_release_date := none }

/-- Chart entry `i` of the 3-entry batch scenario. -/
def cexEntry1 : MatchEntry :=
  { position := 1, title := "T1".data, artist := "A1".data, searchQuery := "q1".data }

/-- Chart entry 2 of the 3-entry batch scenario (its search will fail). -/
def cexEntry2 : MatchEntry :=
  { position := 2, title := "T2".data, artist := "A2".data, searchQuery := "q2".data }

/-- Chart entry 3 of the 3-entry batch scenario. -/
def cexEntry3 : MatchEntry :=
  { position := 3, title := "T3".data, artist := "A3".data, searchQuery := "q3".data }

/-- Search oracle for the batch scenario: the search call for entry 2's query
raises a transport error, every other query succeeds with one candidate. -/
def cexSearch : List Char → Except (List Char) (List Track) := fun q =>
  if q = "q2".data then .error ("network error".data) else .ok [cexTrack]

/-- A plain space-joined query as produced by the chart scraper
(`scrapeWithCheerio` builds `searchQuery` as `TITLE ARTIST`, upper-cased,
with no field qualifiers). -/
def c10Query : List Char := "SOMEBODY THAT I USED TO KNOW GOTYE".data

/-! ### Theory of the reference Levenshtein distance `lev` -/

theorem lev_nil_left (b : List Char) : lev [] b = b.length := by
  simp [lev]

theorem lev_nil_right (a : List Char) : lev a [] = a.length := by
  cases a <;> simp [lev]

theorem lev_self (a : List Char) : lev a a = 0 := by
  induction a with
  | nil => simp [lev]
  | cons x xs ih => simp [lev, ih]

/-- Three-way minimum is one of its arguments. -/
theorem natMin_choice (p q : ℕ) : Nat.min p q = p ∨ Nat.min p q = q := by
  rcases Nat.le_total p q with h | h
  · exact Or.inl (Nat.min_eq_left h)
  · exact Or.inr (Nat.min_eq_right h)


theorem natMin_le_l (p q : ℕ) : Nat.min p q ≤ p := Nat.min_le_left p q

theorem natMin_le_r (p q : ℕ) : Nat.min p q ≤ q := Nat.min_le_right p q

theorem natMin_comm (p q : ℕ) : Nat.min p q = Nat.min q p := by
  rcases Nat.le_total p q with h | h
  · exact (Nat.min_eq_left h).trans (Nat.min_eq_right h).symm
  · exact (Nat.min_eq_right h).trans (Nat.min_eq_left h).symm

theorem lev_comm (a b : List Char) : lev a b = lev b a := by
  induction a, b using lev.induct with
  | case1 ys => rw [lev_nil_left, lev_nil_right]
  | case2 x xs => rw [lev_nil_left, lev_nil_right]
  | case3 xs y ys ih => simp [lev, ih]
  | case4 x xs y ys hxy ih1 ih2 ih3 =>
    have hyx : ¬ y = x := fun h => hxy h.symm
    simp only [lev, if_neg hxy, if_neg hyx, ih1, ih2, ih3]
    rw [natMin_comm (lev (y :: ys) xs) (lev ys (x :: xs))]

theorem lev_eq_zero_iff (a b : List Char) : lev a b = 0 ↔ a = b := by
  induction a, b using lev.induct with
  | case1 ys => simp [lev_nil_left, List.length_eq_zero, eq_comm]
  | case2 x xs => simp [lev_nil_right]
  | case3 xs y ys ih => simp [lev, ih]
  | case4 x xs y ys hxy ih1 ih2 ih3 => simp [lev, if_neg hxy, hxy]

/-- The two one-sided cons bounds for `lev`, proved together by strong
induction on the total length: prepending a character changes the distance
by at most one. -/
theorem lev_cons_bounds : ∀ (N : ℕ) (a c : List Char), a.length + c.length ≤ N →
    (∀ x, lev (x :: a) c ≤ 1 + lev a c) ∧ (∀ x, lev a c ≤ 1 + lev (x :: a) c) := by
  intro N
  induction N with
  | zero =>
    intro a c h
    have ha : a = [] := by
      cases a with
      | nil => rfl
      | cons y ys => simp at h
    have hc : c = [] := by
      cases c with
      | nil => rfl
      | cons y ys => simp at h
    subst ha; subst hc
    refine ⟨fun x => ?_, fun x => ?_⟩
    · simp only [lev_nil_right, List.length_cons, List.length_nil]
      omega
    · simp only [lev_nil_right, List.length_cons, List.length_nil]
      omega
  | succ N ih =>
    intro a c h
    constructor
    · intro x
      cases c with
      | nil =>
        simp only [lev_nil_right, List.length_cons]
        omega
      | cons w c' =>
        by_cases hxw : x = w
        · subst hxw
          rw [show lev (x :: a) (x :: c') = lev a c' by simp [lev]]
          have h4 := ((ih c' a (by simp at h ⊢; omega)).2) x
          rw [lev_comm c' a, lev_comm (x :: c') a] at h4
          exact h4
        · rw [show lev (x :: a) (w :: c')
              = 1 + Nat.min (lev a c') (Nat.min (lev a (w :: c')) (lev (x :: a) c')) by
              simp [lev, if_neg hxw]]
          have h1 := natMin_le_r (lev a c') (Nat.min (lev a (w :: c')) (lev (x :: a) c'))
          have h2 := natMin_le_l (lev a (w :: c')) (lev (x :: a) c')
          omega
    · intro x
      cases c with
      | nil =>
        simp only [lev_nil_right, List.length_cons]
        omega
      | cons w c' =>
        have hB2 : lev a (w :: c') ≤ 1 + lev a c' := by
          have h5 := ((ih c' a (by simp at h ⊢; omega)).1) w
          rw [lev_comm (w :: c') a, lev_comm c' a] at h5
          exact h5
        by_cases hxw : x = w
        · subst hxw
          rw [show lev (x :: a) (x :: c') = lev a c' by simp [lev]]
          exact hB2
        · rw [show lev (x :: a) (w :: c')
              = 1 + Nat.min (lev a c') (Nat.min (lev a (w :: c')) (lev (x :: a) c')) by
              simp [lev, if_neg hxw]]
          have hB3 : lev a c' ≤ 1 + lev (x :: a) c' :=
            ((ih a c' (by simp at h ⊢; omega)).2) x
          rcases natMin_choice (lev a c') (Nat.min (lev a (w :: c')) (lev (x :: a) c')) with
            hm | hm
          · omega
          · rcases natMin_choice (lev a (w :: c')) (lev (x :: a) c') with hm' | hm' <;> omega

theorem lev_cons_left_le (x : Char) (a b : List Char) : lev (x :: a) b ≤ 1 + lev a b :=
  ((lev_cons_bounds (a.length + b.length) a b le_rfl).1) x

theorem lev_le_cons_left (x : Char) (a b : List Char) : lev a b ≤ 1 + lev (x :: a) b :=
  ((lev_cons_bounds (a.length + b.length) a b le_rfl).2) x

theorem lev_cons_right_le (y : Char) (a b : List Char) : lev a (y :: b) ≤ 1 + lev a b := by
  rw [lev_comm a (y :: b), lev_comm a b]
  exact lev_cons_left_le y b a

theorem lev_le_cons_right (y : Char) (a b : List Char) : lev a b ≤ 1 + lev a (y :: b) := by
  rw [lev_comm a (y :: b), lev_comm a b]
  exact lev_le_cons_left y b a

/-- Substituting the head character changes the distance by at most one. -/
theorem lev_sub_head (x y : Char) (a : List Char) :
    ∀ c, lev (x :: a) c ≤ 1 + lev (y :: a) c := by
  by_cases hxy : x = y
  · subst hxy; intro c; omega
  intro c
  induction c with
  | nil =>
    simp only [lev_nil_right, List.length_cons]
    omega
  | cons w c' ihc =>
    by_cases hxw : x = w
    · subst hxw
      have hyx : ¬ y = x := fun h => hxy h.symm
      rw [show lev (x :: a) (x :: c') = lev a c' by simp [lev]]
      rw [show lev (y :: a) (x :: c')
          = 1 + Nat.min (lev a c') (Nat.min (lev a (x :: c')) (lev (y :: a) c')) by
          simp [lev, if_neg hyx]]
      have h1 : lev a c' ≤ 1 + lev a (x :: c') := lev_le_cons_right x a c'
      have h2 : lev a c' ≤ 1 + lev (y :: a) c' := lev_le_cons_left y a c'
      rcases natMin_choice (lev a c') (Nat.min (lev a (x :: c')) (lev (y :: a) c')) with
        hm | hm
      · omega
      · rcases natMin_choice (lev a (x :: c')) (lev (y :: a) c') with hm' | hm' <;> omega
    · rw [show lev (x :: a) (w :: c')
          = 1 + Nat.min (lev a c') (Nat.min (lev a (w :: c')) (lev (x :: a) c')) by
          simp [lev, if_neg hxw]]
      have hL1 := natMin_le_l (lev a c') (Nat.min (lev a (w :: c')) (lev (x :: a) c'))
      have hL2 := natMin_le_r (lev a c') (Nat.min (lev a (w :: c')) (lev (x :: a) c'))
      have hL3 := natMin_le_l (lev a (w :: c')) (lev (x :: a) c')
      have hL4 := natMin_le_r (lev a (w :: c')) (lev (x :: a) c')
      by_cases hyw : y = w
      · subst hyw
        rw [show lev (y :: a) (y :: c') = lev a c' by simp [lev]]
        omega
      · rw [show lev (y :: a) (w :: c')
            = 1 + Nat.min (lev a c') (Nat.min (lev a (w :: c')) (lev (y :: a) c')) by
            simp [lev, if_neg hyw]]
        rcases natMin_choice (lev a c') (Nat.min (lev a (w :: c')) (lev (y :: a) c')) with
          hm | hm
        · omega
        · rcases natMin_choice (lev a (w :: c')) (lev (y :: a) c') with hm' | hm' <;> omega

theorem estep_length_le {u v : List Char} (h : EStep u v) : u.length ≤ v.length + 1 := by
  induction h with
  | ins x xs => simp; omega
  | del x xs => simp
  | sub x y xs => simp
  | cons z h ih => simpa using ih

/-- One edit on the left string changes the distance to any third string by
at most one. -/
theorem estep_lev_le {u v : List Char} (h : EStep u v) :
    ∀ c, lev u c ≤ 1 + lev v c := by
  induction h with
  | ins x xs => exact fun c => lev_le_cons_left x xs c
  | del x xs => exact fun c => lev_cons_left_le x xs c
  | sub x y xs => exact fun c => lev_sub_head x y xs c
  | cons z h ih =>
    rename_i xs ys
    intro c
    induction c with
    | nil =>
      have := estep_length_le h
      simp only [lev_nil_right, List.length_cons]
      omega
    | cons w c' ihc =>
      by_cases hzw : z = w
      · subst hzw
        rw [show lev (z :: xs) (z :: c') = lev xs c' by simp [lev]]
        rw [show lev (z :: ys) (z :: c') = lev ys c' by simp [lev]]
        exact ih c'
      · rw [show lev (z :: xs) (w :: c')
            = 1 + Nat.min (lev xs c') (Nat.min (lev xs (w :: c')) (lev (z :: xs) c')) by
            simp [lev, if_neg hzw]]
        rw [show lev (z :: ys) (w :: c')
            = 1 + Nat.min (lev ys c') (Nat.min (lev ys (w :: c')) (lev (z :: ys) c')) by
            simp [lev, if_neg hzw]]
        have hL1 := natMin_le_l (lev xs c') (Nat.min (lev xs (w :: c')) (lev (z :: xs) c'))
        have hL2 := natMin_le_r (lev xs c') (Nat.min (lev xs (w :: c')) (lev (z :: xs) c'))
        have hL3 := natMin_le_l (lev xs (w :: c')) (lev (z :: xs) c')
        have hL4 := natMin_le_r (lev xs (w :: c')) (lev (z :: xs) c')
        have hi1 := ih c'
        have hi2 := ih (w :: c')
        rcases natMin_choice (lev ys c') (Nat.min (lev ys (w :: c')) (lev (z :: ys) c')) with
          hm | hm
        · omega
        · rcases natMin_choice (lev ys (w :: c')) (lev (z :: ys) c') with hm' | hm' <;> omega

theorem echain_lev_le {a b : List Char} {n : ℕ} (h : EChain a b n) : lev a b ≤ n := by
  induction h with
  | refl a => rw [lev_self]
  | step hs hc ih =>
    rename_i u v w m
    have := estep_lev_le hs w
    omega

theorem echain_snoc {a b c : List Char} {n : ℕ} (h : EChain a b n) (hs : EStep b c) :
    EChain a c (n + 1) := by
  induction h with
  | refl a => exact EChain.step hs (EChain.refl c)
  | step hs' hc ih => exact EChain.step hs' (ih hs)

theorem echain_cons {a b : List Char} {n : ℕ} (z : Char) (h : EChain a b n) :
    EChain (z :: a) (z :: b) n := by
  induction h with
  | refl a => exact EChain.refl (z :: a)
  | step hs hc ih => exact EChain.step (EStep.cons z hs) ih

theorem echain_trans {a b c : List Char} {m n : ℕ}
    (h1 : EChain a b m) (h2 : EChain b c n) : EChain a c (m + n) := by
  induction h1 with
  | refl a => simpa using h2
  | step hs hc ih =>
    rename_i m'
    have := EChain.step hs (ih h2)
    rwa [show m' + n + 1 = m' + 1 + n by omega] at this

theorem echain_nil_to (b : List Char) : EChain [] b b.length := by
  induction b with
  | nil => exact EChain.refl []
  | cons y b' ih => exact echain_snoc ih (EStep.ins y b')

theorem echain_to_nil (a : List Char) : EChain a [] a.length := by
  induction a with
  | nil => exact EChain.refl []
  | cons x a' ih => exact EChain.step (EStep.del x a') ih

/-- `lev a b` edits always suffice to turn `a` into `b`. -/
theorem lev_echain : ∀ (N : ℕ) (a b : List Char), a.length + b.length ≤ N →
    EChain a b (lev a b) := by
  intro N
  induction N with
  | zero =>
    intro a b h
    have ha : a = [] := by
      cases a with
      | nil => rfl
      | cons y ys => simp at h
    have hb : b = [] := by
      cases b with
      | nil => rfl
      | cons y ys => simp at h
    subst ha; subst hb
    rw [lev_self]
    exact EChain.refl []
  | succ N ih =>
    intro a b h
    cases a with
    | nil =>
      rw [lev_nil_left]
      exact echain_nil_to b
    | cons x a' =>
      cases b with
      | nil =>
        rw [lev_nil_right]
        exact echain_to_nil (x :: a')
      | cons y b' =>
        by_cases hxy : x = y
        · subst hxy
          rw [show lev (x :: a') (x :: b') = lev a' b' by simp [lev]]
          exact echain_cons x (ih a' b' (by simp at h ⊢; omega))
        · rw [show lev (x :: a') (y :: b')
              = 1 + Nat.min (lev a' b') (Nat.min (lev a' (y :: b')) (lev (x :: a') b')) by
              simp [lev, if_neg hxy]]
          rcases natMin_choice (lev a' b') (Nat.min (lev a' (y :: b')) (lev (x :: a') b')) with
            hm | hm
          · rw [hm, Nat.add_comm]
            exact EChain.step (EStep.sub x y a')
              (echain_cons y (ih a' b' (by simp at h ⊢; omega)))
          · rw [hm]
            rcases natMin_choice (lev a' (y :: b')) (lev (x :: a') b') with hm' | hm'
            · rw [hm', Nat.add_comm]
              exact EChain.step (EStep.del x a') (ih a' (y :: b') (by simp at h ⊢; omega))
            · rw [hm', Nat.add_comm]
              exact echain_snoc (ih (x :: a') b' (by simp at h ⊢; omega)) (EStep.ins y b')

/-- Triangle inequality for the reference Levenshtein distance. -/
theorem lev_triangle (a b c : List Char) : lev a c ≤ lev a b + lev b c :=
  echain_lev_le
    (echain_trans (lev_echain (a.length + b.length) a b le_rfl)
      (lev_echain (b.length + c.length) b c le_rfl))

theorem natMin_add_one (p q : ℕ) : Nat.min (p + 1) (q + 1) = Nat.min p q + 1 :=
  Nat.succ_min_succ p q

/-- The cell recurrence of the matrix program computes `lev` of the extended
reversed prefixes: the `if`-expression is exactly the `v` computed by
`levenshteinRowStep` with `pd = lev r u`, `left = lev r (c :: u)`,
`up = lev (x :: r) u`. -/
theorem lev_cell (c x : Char) (r u : List Char) :
    (if c = x then lev r u
     else Nat.min (lev r u + 1) (Nat.min (lev r (c :: u) + 1) (lev (x :: r) u + 1)))
    = lev (x :: r) (c :: u) := by
  by_cases hcx : c = x
  · subst hcx
    rw [if_pos rfl]
    simp [lev]
  · rw [if_neg hcx]
    have hxc : ¬ x = c := fun h => hcx h.symm
    rw [show lev (x :: r) (c :: u)
        = 1 + Nat.min (lev r u) (Nat.min (lev r (c :: u)) (lev (x :: r) u)) by
        simp [lev, if_neg hxc]]
    rw [natMin_add_one (lev r (c :: u)) (lev (x :: r) u)]
    rw [natMin_add_one (lev r u) (Nat.min (lev r (c :: u)) (lev (x :: r) u))]
    omega

theorem levenshteinRowStep_spec (c : Char) (u : List Char) :
    ∀ (xs r : List Char),
      levenshteinRowStep c xs (specCells u r xs) (lev r (c :: u)) =
        (specCells (c :: u) r xs).tail := by
  intro xs
  induction xs with
  | nil => intro r; rfl
  | cons x xs' ihx =>
    intro r
    cases xs' with
    | nil =>
      show levenshteinRowStep c [x] [lev r u, lev (x :: r) u] (lev r (c :: u)) = _
      simp only [levenshteinRowStep, specCells, List.tail_cons]
      rw [lev_cell c x r u]
    | cons x' xs'' =>
      show levenshteinRowStep c (x :: x' :: xs'')
          (lev r u :: lev (x :: r) u :: specCells u (x' :: x :: r) xs'')
          (lev r (c :: u)) = _
      simp only [levenshteinRowStep]
      rw [lev_cell c x r u]
      have := ihx (x :: r)
      simp only [specCells] at this
      rw [this]
      rfl

theorem levenshteinNextRow_spec (c : Char) (u s1 : List Char) :
    levenshteinNextRow c s1 (specCells u [] s1) = specCells (c :: u) [] s1 := by
  have hhead : (specCells u [] s1).headD 0 = lev [] u := by
    cases s1 <;> rfl
  have hlen : lev [] u + 1 = lev [] (c :: u) := by
    rw [lev_nil_left, lev_nil_left, List.length_cons]
  unfold levenshteinNextRow
  rw [hhead, hlen, levenshteinRowStep_spec c u s1 []]
  cases s1 <;> rfl

theorem specCells_nil_u : ∀ (xs r : List Char),
    specCells [] r xs = List.range' r.length (xs.length + 1) := by
  intro xs
  induction xs with
  | nil =>
    intro r
    simp [specCells, lev_nil_right, List.range'_succ]
  | cons x xs' ih =>
    intro r
    rw [show specCells [] r (x :: xs') = lev r [] :: specCells [] (x :: r) xs' from rfl]
    rw [ih (x :: r), lev_nil_right]
    rw [List.length_cons, List.range'_succ]
    rfl

theorem foldRows_spec (s1 : List Char) :
    ∀ (t u : List Char),
      t.foldl (fun prev c => levenshteinNextRow c s1 prev) (specCells u [] s1) =
        specCells (t.reverse ++ u) [] s1 := by
  intro t
  induction t with
  | nil => intro u; simp
  | cons c t' ih =>
    intro u
    rw [List.foldl_cons, levenshteinNextRow_spec c u s1, ih (c :: u)]
    simp

theorem specCells_getLastD (u : List Char) :
    ∀ (xs r : List Char) (d : ℕ),
      (specCells u r xs).getLastD d = lev (xs.reverse ++ r) u := by
  intro xs
  induction xs with
  | nil => intro r d; simp [specCells]
  | cons x xs' ih =>
    intro r d
    rw [show specCells u r (x :: xs') = lev r u :: specCells u (x :: r) xs' from rfl]
    rw [List.getLastD_cons, ih (x :: r) (lev r u)]
    simp

/-- The matrix program of the source equals the reference recursive
Levenshtein distance on the reversed strings. -/
theorem levenshteinDistance_eq_lev (str1 str2 : List Char) :
    levenshteinDistance str1 str2 = lev str1.reverse str2.reverse := by
  unfold levenshteinDistance
  have hbase : List.range (str1.length + 1) = specCells [] [] str1 := by
    rw [specCells_nil_u str1 []]
    simp [List.range_eq_range']
  rw [hbase, foldRows_spec str1 str2 [], specCells_getLastD]
  simp

/-- Symmetry of the source's Levenshtein program. -/
theorem levenshteinDistance_comm (a b : List Char) :
    levenshteinDistance a b = levenshteinDistance b a := by
  rw [levenshteinDistance_eq_lev, levenshteinDistance_eq_lev, lev_comm]

/-- Identity of indiscernibles for the source's Levenshtein program. -/
theorem levenshteinDistance_eq_zero_iff (a b : List Char) :
    levenshteinDistance a b = 0 ↔ a = b := by
  rw [levenshteinDistance_eq_lev, lev_eq_zero_iff]
  exact List.reverse_inj

/-- Triangle inequality for the source's Levenshtein program. -/
theorem levenshteinDistance_triangle (a b c : List Char) :
    levenshteinDistance a c ≤ levenshteinDistance a b + levenshteinDistance b c := by
  rw [levenshteinDistance_eq_lev, levenshteinDistance_eq_lev, levenshteinDistance_eq_lev]
  exact lev_triangle a.reverse b.reverse c.reverse

/-- Claim C6: the similarity function is symmetric —
`calculateSimilarity a b = calculateSimilarity b a` for all strings `a`, `b`,
even though the implementation orders the two cleaned strings into a
longer/shorter pair (picking the second when the cleaned lengths are equal)
before computing the edit distance. -/
theorem c6_calculateSimilarity_symm (a b : List Char) :
    calculateSimilarity a b = calculateSimilarity b a := by
  simp only [calculateSimilarity]
  rcases lt_trichotomy (cleanStr a).length (cleanStr b).length with h | h | h
  · have h1 : ¬ (cleanStr b).length < (cleanStr a).length := by omega
    simp only [if_neg h1, if_pos h]
  · have h1 : ¬ (cleanStr b).length < (cleanStr a).length := by omega
    have h2 : ¬ (cleanStr a).length < (cleanStr b).length := by omega
    simp only [if_neg h1, if_neg h2]
    rw [h, levenshteinDistance_comm (cleanStr b) (cleanStr a)]
  · have h2 : ¬ (cleanStr a).length < (cleanStr b).length := by omega
    simp only [if_pos h, if_neg h2]

/-- Claim C7: the Levenshtein distance computed by `levenshteinDistance` is a
metric in the two senses the specification names: it is 0 exactly on equal
strings, and it satisfies the triangle inequality. -/
theorem c7_levenshteinDistance_metric (a b c : List Char) :
    (levenshteinDistance a b = 0 ↔ a = b) ∧
    levenshteinDistance a c ≤ levenshteinDistance a b + levenshteinDistance b c :=
  ⟨levenshteinDistance_eq_zero_iff a b, levenshteinDistance_triangle a b c⟩

theorem simRatio_le_one (L d : ℕ) (h : L ≠ 0) : ((L : ℚ) - (d : ℚ)) / (L : ℚ) ≤ 1 := by
  have hL : (0 : ℚ) < (L : ℚ) := by positivity
  rw [div_le_one hL]
  have hd : (0 : ℚ) ≤ (d : ℚ) := by positivity
  linarith

/-- A similarity is never more than 1. -/
theorem calculateSimilarity_le_one (a b : List Char) : calculateSimilarity a b ≤ 1 := by
  simp only [calculateSimilarity]
  split_ifs with h1 h2 h3
  · exact le_refl 1
  · exact simRatio_le_one _ _ h2
  · exact le_refl 1
  · exact simRatio_le_one _ _ h3

theorem recencyBonus_nonneg (y : ℤ) (tr : Track) : 0 ≤ recencyBonus y tr := by
  unfold recencyBonus
  split
  · exact le_refl 0
  · split
    · exact le_refl 0
    · split <;> norm_num

theorem recencyBonus_le_three (y : ℤ) (tr : Track) : recencyBonus y tr ≤ 3 := by
  unfold recencyBonus
  split
  · norm_num
  · split
    · norm_num
    · split <;> norm_num

theorem firstArgmax_isSome (l : List (ℕ × ℚ)) (h : l ≠ []) :
    ∃ m, firstArgmax l = some m := by
  cases l with
  | nil => exact absurd rfl h
  | cons p l' =>
    cases hfa : firstArgmax l' with
    | none => exact ⟨p, by simp [firstArgmax, hfa]⟩
    | some b => exact ⟨if p.2 < b.2 then b else p, by simp [firstArgmax, hfa]⟩

/-- The head of the stable descending sort is the first pair of maximal
score. -/
theorem insertionSort_headD (d : ℕ × ℚ) :
    ∀ l : List (ℕ × ℚ),
      (List.insertionSort byScoreDesc l).headD d = (firstArgmax l).getD d := by
  intro l
  induction l with
  | nil => rfl
  | cons p l' ih =>
    rw [show List.insertionSort byScoreDesc (p :: l')
        = List.orderedInsert byScoreDesc p (List.insertionSort byScoreDesc l') from rfl]
    cases hs : List.insertionSort byScoreDesc l' with
    | nil =>
      have hl' : l' = [] := by
        have hperm := List.perm_insertionSort byScoreDesc l'
        rw [hs] at hperm
        exact (hperm.symm.eq_nil)
      subst hl'
      simp [firstArgmax, List.orderedInsert]
    | cons b t =>
      have hl' : l' ≠ [] := by
        intro h0
        subst h0
        simp [List.insertionSort] at hs
      obtain ⟨m, hm⟩ := firstArgmax_isSome l' hl'
      have hb : b = m := by
        have hih := ih
        rw [hs, hm] at hih
        simpa using hih
      subst hb
      rw [List.orderedInsert]
      by_cases hpb : byScoreDesc p b
      · rw [if_pos hpb]
        have hnot : ¬ p.2 < b.2 := not_lt.mpr hpb
        simp [firstArgmax, hm, if_neg hnot]
      · rw [if_neg hpb]
        have hlt : p.2 < b.2 := lt_of_not_le hpb
        simp [firstArgmax, hm, if_pos hlt]

/-- Master lemma for `firstArgmax` over indexed score pairs: it returns the
first index of maximal score. -/
theorem fa_idxPairs (f : Track → ℚ) :
    ∀ (l : List Track) (k : ℕ), l ≠ [] →
      ∃ i, i < l.length ∧
        firstArgmax (idxPairs f k l) = some (k + i, (l.map f).getD i 0) ∧
        (∀ j, j < l.length → (l.map f).getD j 0 ≤ (l.map f).getD i 0) ∧
        (∀ j, j < i → (l.map f).getD j 0 < (l.map f).getD i 0) := by
  intro l
  induction l with
  | nil => intro k h; exact absurd rfl h
  | cons tr rest ih =>
    intro k _
    by_cases hrest : rest = []
    · subst hrest
      refine ⟨0, by simp, by simp [idxPairs, firstArgmax], ?_, ?_⟩
      · intro j hj
        have : j = 0 := by simpa using hj
        subst this
        exact le_refl _
      · intro j hj
        exact absurd hj (by omega)
    · obtain ⟨i', hi'len, hfa', hle', hlt'⟩ := ih (k + 1) hrest
      by_cases hcmp : f tr < (rest.map f).getD i' 0
      · refine ⟨i' + 1, by simp; omega, ?_, ?_, ?_⟩
        · simp only [idxPairs, firstArgmax, hfa']
          rw [if_pos hcmp]
          simp only [List.map_cons, List.getD_cons_succ]
          congr 2
          omega
        · intro j hj
          simp only [List.map_cons, List.getD_cons_succ]
          cases j with
          | zero => simp only [List.getD_cons_zero]; exact le_of_lt hcmp
          | succ j' =>
            simp only [List.getD_cons_succ]
            exact hle' j' (by simpa using hj)
        · intro j hj
          simp only [List.map_cons, List.getD_cons_succ]
          cases j with
          | zero => simp only [List.getD_cons_zero]; exact hcmp
          | succ j' =>
            simp only [List.getD_cons_succ]
            exact hlt' j' (by omega)
      · refine ⟨0, by simp, ?_, ?_, ?_⟩
        · simp only [idxPairs, firstArgmax, hfa']
          rw [if_neg hcmp]
          simp
        · intro j hj
          simp only [List.map_cons, List.getD_cons_zero]
          cases j with
          | zero => exact le_refl _
          | succ j' =>
            simp only [List.getD_cons_succ]
            exact le_trans (hle' j' (by simpa using hj)) (not_lt.mp hcmp)
        · intro j hj
          exact absurd hj (by omega)

theorem enumFrom_map_idxPairs (f : Track → ℚ) :
    ∀ (l : List Track) (k : ℕ),
      (List.enumFrom k l).map (fun p => (p.1, f p.2)) = idxPairs f k l := by
  intro l
  induction l with
  | nil => intro k; rfl
  | cons tr rest ih =>
    intro k
    rw [show List.enumFrom k (tr :: rest) = (k, tr) :: List.enumFrom (k + 1) rest from rfl]
    rw [List.map_cons, ih (k + 1)]
    rfl

/-- For lists of length at least 2, `selectBestMatch` returns the first index
of maximal score. -/
theorem selectBestMatch_spec (y : ℤ) (tracks : List Track) (T A : List Char)
    (h2 : 2 ≤ tracks.length) :
    selectBestMatch y tracks T A < tracks.length ∧
    (∀ j, j < tracks.length →
      (tracks.map (fun tr => score y tr T A)).getD j 0 ≤
        (tracks.map (fun tr => score y tr T A)).getD (selectBestMatch y tracks T A) 0) ∧
    (∀ j, j < selectBestMatch y tracks T A →
      (tracks.map (fun tr => score y tr T A)).getD j 0 <
        (tracks.map (fun tr => score y tr T A)).getD (selectBestMatch y tracks T A) 0) := by
  have hne : tracks ≠ [] := by
    intro h0
    rw [h0] at h2
    simp at h2
  obtain ⟨i, hilen, hfa, hle, hlt⟩ :=
    fa_idxPairs (fun tr => score y tr T A) tracks 0 hne
  have hsel : selectBestMatch y tracks T A = i := by
    unfold selectBestMatch
    rw [if_neg (by omega), if_neg (by omega)]
    simp only
    rw [show tracks.enum = List.enumFrom 0 tracks from rfl]
    rw [enumFrom_map_idxPairs (fun tr => score y tr T A) tracks 0]
    rw [insertionSort_headD (0, 0) (idxPairs (fun tr => score y tr T A) 0 tracks)]
    rw [hfa]
    simp
  rw [hsel]
  exact ⟨hilen, hle, hlt⟩

/-- Claim C9: scoring and selection are deterministic.  `selectBestMatch` is
a pure function of the current-year parameter, the candidate list and the
original title/artist (so two runs on the same inputs agree), and its result
is fully determined as the first index of maximal score: every candidate
scores at most the selected one, and every earlier candidate scores strictly
less (ties are broken by original search-result order). -/
theorem c9_selectBestMatch_deterministic (y : ℤ) (tracks : List Track)
    (T A : List Char) (h2 : 2 ≤ tracks.length) :
    selectBestMatch y tracks T A = selectBestMatch y tracks T A ∧
    selectBestMatch y tracks T A < tracks.length ∧
    (∀ j, j < tracks.length →
      (tracks.map (fun tr => score y tr T A)).getD j 0 ≤
        (tracks.map (fun tr => score y tr T A)).getD (selectBestMatch y tracks T A) 0) ∧
    (∀ j, j < selectBestMatch y tracks T A →
      (tracks.map (fun tr => score y tr T A)).getD j 0 <
        (tracks.map (fun tr => score y tr T A)).getD (selectBestMatch y tracks T A) 0) :=
  ⟨rfl, selectBestMatch_spec y tracks T A h2⟩

/-- Claim C5: for candidate lists of length 0 or 1, `selectBestMatch`
returns 0 via its early-return fast path; the result does not depend on the
candidate's fields, the titles, or the current year, so the scoring function
is never consulted. -/
theorem c5_selectBestMatch_short (y : ℤ) (tracks : List Track) (T A : List Char)
    (h : tracks.length ≤ 1) :
    selectBestMatch y tracks T A = 0 := by
  unfold selectBestMatch
  rcases Nat.lt_or_ge tracks.length 1 with h1 | h1
  · rw [if_pos (by omega)]
  · rw [if_neg (by omega), if_pos (by omega)]

/-- Witness for claim C5 at the empty list and a singleton list. -/
theorem c5_witness :
    ([] : List Track).length ≤ 1 ∧ selectBestMatch 2026 [] c3Title c3Artist = 0 ∧
    [c3Cand1].length ≤ 1 ∧ selectBestMatch 2026 [c3Cand1] c3Title c3Artist = 0 :=
  ⟨by decide, c5_selectBestMatch_short 2026 [] c3Title c3Artist (by decide),
   by decide, c5_selectBestMatch_short 2026 [c3Cand1] c3Title c3Artist (by decide)⟩

theorem selectBestMatch_short_eq (y : ℤ) (tracks : List Track) (T A : List Char)
    (h : tracks.length ≤ 1) : selectBestMatch y tracks T A = 0 := by
  unfold selectBestMatch
  rcases Nat.lt_or_ge tracks.length 1 with h1 | h1
  · rw [if_pos (by omega)]
  · rw [if_neg (by omega), if_pos (by omega)]

theorem selectBestMatch_lt (y : ℤ) (tracks : List Track) (T A : List Char)
    (h : tracks ≠ []) : selectBestMatch y tracks T A < tracks.length := by
  have hlen : tracks.length ≠ 0 := by
    simpa [List.length_eq_zero] using h
  rcases le_or_lt tracks.length 1 with h1 | h1
  · rw [selectBestMatch_short_eq y tracks T A h1]
    omega
  · exact (selectBestMatch_spec y tracks T A (by omega)).1

/-- Claim C4: the recorded selected index is always valid.  The index
returned by `selectBestMatch` on a non-empty list is in range, a non-null
`selectedMatch` recorded by the match handler is a valid index into the
recorded `spotifyMatches`, and an empty candidate list is recorded with a
null `selectedMatch`. -/
theorem c4_selected_index_in_range (y : ℤ)
    (search : List Char → Except (List Char) (List Track)) (e : MatchEntry)
    (tracks : List Track) (T A : List Char) :
    (tracks ≠ [] → selectBestMatch y tracks T A < tracks.length) ∧
    (∀ i, (matchOne y search e).selectedMatch = some i →
      i < (matchOne y search e).spotifyMatches.length) ∧
    ((matchOne y search e).spotifyMatches = [] →
      (matchOne y search e).selectedMatch = none) := by
  refine ⟨fun h => selectBestMatch_lt y tracks T A h, ?_, ?_⟩
  · intro i hi
    simp only [matchOne] at hi ⊢
    by_cases hpos : 0 < (searchTracksM search e.searchQuery).length
    · rw [if_pos hpos] at hi
      have hi' := Option.some.inj hi
      rw [← hi']
      refine selectBestMatch_lt y _ e.title e.artist ?_
      intro h0
      rw [h0] at hpos
      simp at hpos
    · rw [if_neg hpos] at hi
      exact absurd hi (by simp)
  · intro hempty
    simp only [matchOne] at hempty ⊢
    have hneg : ¬ 0 < (searchTracksM search e.searchQuery).length := by
      rw [hempty]
      simp
    rw [if_neg hneg]

/-- Witness for claim C4: a two-candidate list is selected in range, a
concrete recorded `some 0` is a valid index, and a failing search records a
null selected index. -/
theorem c4_witness :
    selectBestMatch 2026 [c3Cand0, c3Cand1] c3Title c3Artist < 2 ∧
    0 < (matchOne 2026 cexSearch cexEntry1).spotifyMatches.length ∧
    (matchOne 2026 cexSearch cexEntry2).selectedMatch = none :=
  ⟨(c4_selected_index_in_range 2026 cexSearch cexEntry1 [c3Cand0, c3Cand1]
      c3Title c3Artist).1 (by decide),
   (c4_selected_index_in_range 2026 cexSearch cexEntry1 [] c3Title c3Artist).2.1
      0 (by decide),
   (c4_selected_index_in_range 2026 cexSearch cexEntry2 [] c3Title c3Artist).2.2
      (by decide)⟩

/-- Witness for claim C9 on the concrete two-candidate Gotye list. -/
theorem c9_witness :
    2 ≤ ([c3Cand0, c3Cand1] : List Track).length ∧
    (selectBestMatch 2026 [c3Cand0, c3Cand1] c3Title c3Artist
        = selectBestMatch 2026 [c3Cand0, c3Cand1] c3Title c3Artist ∧
      selectBestMatch 2026 [c3Cand0, c3Cand1] c3Title c3Artist
        < ([c3Cand0, c3Cand1] : List Track).length ∧
      (∀ j, j < ([c3Cand0, c3Cand1] : List Track).length →
        (([c3Cand0, c3Cand1] : List Track).map
            (fun tr => score 2026 tr c3Title c3Artist)).getD j 0 ≤
          (([c3Cand0, c3Cand1] : List Track).map
            (fun tr => score 2026 tr c3Title c3Artist)).getD
            (selectBestMatch 2026 [c3Cand0, c3Cand1] c3Title c3Artist) 0) ∧
      (∀ j, j < selectBestMatch 2026 [c3Cand0, c3Cand1] c3Title c3Artist →
        (([c3Cand0, c3Cand1] : List Track).map
            (fun tr => score 2026 tr c3Title c3Artist)).getD j 0 <
          (([c3Cand0, c3Cand1] : List Track).map
            (fun tr => score 2026 tr c3Title c3Artist)).getD
            (selectBestMatch 2026 [c3Cand0, c3Cand1] c3Title c3Artist) 0)) :=
  ⟨by decide,
   c9_selectBestMatch_deterministic 2026 [c3Cand0, c3Cand1] c3Title c3Artist (by decide)⟩

theorem calculateSimilarity_eq_one_of_clean_eq (a b : List Char)
    (h : cleanStr a = cleanStr b) : calculateSimilarity a b = 1 := by
  simp only [calculateSimilarity, h, lt_irrefl, if_false]
  by_cases hz : (cleanStr b).length = 0
  · rw [if_pos hz]
  · rw [if_neg hz]
    rw [show levenshteinDistance (cleanStr b) (cleanStr b) = 0 from
      (levenshteinDistance_eq_zero_iff _ _).mpr rfl]
    have hL : ((cleanStr b).length : ℚ) ≠ 0 := by
      exact_mod_cast hz
    push_cast
    rw [sub_zero, div_self hL]

theorem score_c3Cand0 (y : ℤ) :
    score y c3Cand0 c3Title c3Artist = 115 + recencyBonus y c3Cand0 := by
  have hT : calculateSimilarity (toLowerList c3Title) (toLowerList c3Cand0.name) = 1 :=
    calculateSimilarity_eq_one_of_clean_eq _ _ (by decide)
  have hA : calculateSimilarity (toLowerList c3Artist) (toLowerList c3Cand0.artist) = 1 :=
    calculateSimilarity_eq_one_of_clean_eq _ _ (by decide)
  have h1 : (if c3Cand0.album_type = ("album".data) then (10 : ℚ)
      else if c3Cand0.album_type = ("single".data) then 5 else 0) = 5 := by
    rw [if_neg (by decide), if_pos (by decide)]
  have h2 : (if c3Cand0.explicit = true then (0 : ℚ) else 5) = 5 := by
    rw [if_neg (by decide)]
  have h3 : (if coverCond (toLowerList c3Cand0.name) (toLowerList c3Cand0.artist) = true
      then (-30 : ℚ) else 0) = 0 := by
    rw [if_neg (by decide)]
  have h4 : (if remixCond (toLowerList c3Cand0.name) = true then (-20 : ℚ) else 0) = 0 := by
    rw [if_neg (by decide)]
  have h5 : ((c3Cand0.popularity : ℚ)) = 70 := by
    rw [show c3Cand0.popularity = 70 from rfl]
    norm_num
  simp only [score]
  rw [hT, hA, h1, h2, h3, h4, h5]
  ring

theorem score_c3Cand1_le (y : ℤ) : score y c3Cand1 c3Title c3Artist ≤ 53 := by
  have hT := calculateSimilarity_le_one (toLowerList c3Title) (toLowerList c3Cand1.name)
  have hA := calculateSimilarity_le_one (toLowerList c3Artist) (toLowerList c3Cand1.artist)
  have hR := recencyBonus_le_three y c3Cand1
  have h1 : (if c3Cand1.album_type = ("album".data) then (10 : ℚ)
      else if c3Cand1.album_type = ("single".data) then 5 else 0) = 0 := by
    rw [if_neg (by decide), if_neg (by decide)]
  have h2 : (if c3Cand1.explicit = true then (0 : ℚ) else 5) = 5 := by
    rw [if_neg (by decide)]
  have h3 : (if coverCond (toLowerList c3Cand1.name) (toLowerList c3Cand1.artist) = true
      then (-30 : ℚ) else 0) = -30 := by
    rw [if_pos (by decide)]
  have h4 : (if remixCond (toLowerList c3Cand1.name) = true then (-20 : ℚ) else 0) = 0 := by
    rw [if_neg (by decide)]
  have h5 : ((c3Cand1.popularity : ℚ)) = 40 := by
    rw [show c3Cand1.popularity = 40 from rfl]
    norm_num
  simp only [score]
  rw [h1, h2, h3, h4, h5]
  linarith

/-- Claim C3: in the Gotye scenario, `selectBestMatch` returns index 0 (the
genuine single beats the karaoke cover) for every value of the fixed
current-year parameter. -/
theorem c3_gotye_scenario (y : ℤ) :
    selectBestMatch y [c3Cand0, c3Cand1] c3Title c3Artist = 0 := by
  obtain ⟨hlen, hle, hlt⟩ :=
    selectBestMatch_spec y [c3Cand0, c3Cand1] c3Title c3Artist (by decide)
  have hs0 := score_c3Cand0 y
  have hs1 := score_c3Cand1_le y
  have hR0 := recencyBonus_nonneg y c3Cand0
  rcases Nat.lt_or_ge (selectBestMatch y [c3Cand0, c3Cand1] c3Title c3Artist) 1 with
    h1 | h1
  · omega
  · exfalso
    have hi1 : selectBestMatch y [c3Cand0, c3Cand1] c3Title c3Artist = 1 := by
      simp at hlen
      omega
    have hcontra := hlt 0 (by omega)
    rw [hi1] at hcontra
    simp only [List.map_cons, List.getD_cons_zero, List.getD_cons_succ] at hcontra
    linarith

theorem score_coverCond_true (y : ℤ) (tr : Track) (T A : List Char)
    (h : coverCond (toLowerList tr.name) (toLowerList tr.artist) = true) :
    score y tr T A = scoreWithoutCover y tr T A - 30 := by
  simp only [score, scoreWithoutCover]
  rw [if_pos h]
  ring

theorem score_coverCond_false (y : ℤ) (tr : Track) (T A : List Char)
    (h : coverCond (toLowerList tr.name) (toLowerList tr.artist) = false) :
    score y tr T A = scoreWithoutCover y tr T A := by
  simp only [score, scoreWithoutCover, h, Bool.false_eq_true, if_false]
  ring

/-- The source's cover-penalty condition, characterised: it fires exactly
when the lower-cased name contains one of the four keywords, or the
lower-cased artist contains "cover" or "tribute". -/
theorem coverCond_iff (n a : List Char) :
    coverCond n a = true ↔
      ((∃ w ∈ [("cover".data), ("tribute".data), ("karaoke".data), ("instrumental".data)],
          hasSub n w = true) ∨
       (∃ w ∈ [("cover".data), ("tribute".data)], hasSub a w = true)) := by
  simp only [coverCond, Bool.or_eq_true, List.mem_cons, List.not_mem_nil, or_false,
    exists_eq_or_imp, exists_eq_left]
  tauto

/-- Claim C1 (amended): the scoring inside `selectBestMatch` subtracts 30
from a candidate's score — exactly once, independently of how many keywords
occur — precisely when the candidate's lower-cased display name contains one
of "cover", "tribute", "karaoke", "instrumental", or its lower-cased
primary artist contains "cover" or "tribute".  (An artist containing only
"karaoke" or "instrumental" does not trigger the penalty.) -/
theorem c1_cover_penalty_amended (y : ℤ) (tr : Track) (T A : List Char) :
    (((∃ w ∈ [("cover".data), ("tribute".data), ("karaoke".data), ("instrumental".data)],
        hasSub (toLowerList tr.name) w = true) ∨
      (∃ w ∈ [("cover".data), ("tribute".data)], hasSub (toLowerList tr.artist) w = true)) →
        score y tr T A = scoreWithoutCover y tr T A - 30) ∧
    (¬ ((∃ w ∈ [("cover".data), ("tribute".data), ("karaoke".data), ("instrumental".data)],
        hasSub (toLowerList tr.name) w = true) ∨
      (∃ w ∈ [("cover".data), ("tribute".data)], hasSub (toLowerList tr.artist) w = true)) →
        score y tr T A = scoreWithoutCover y tr T A) := by
  constructor
  · intro h
    exact score_coverCond_true y tr T A
      ((coverCond_iff (toLowerList tr.name) (toLowerList tr.artist)).mpr h)
  · intro h
    cases hcc : coverCond (toLowerList tr.name) (toLowerList tr.artist) with
    | false => exact score_coverCond_false y tr T A hcc
    | true =>
      exact absurd
        ((coverCond_iff (toLowerList tr.name) (toLowerList tr.artist)).mp hcc) h

/-- Counterexample to claim C1 as stated: for a candidate whose primary
artist contains "instrumental" (but whose display name contains no keyword),
the code applies no penalty — the score equals the penalty-free sum, not
that sum minus 30. -/
theorem c1_counterexample :
    hasSub (toLowerList c1CexTrack.artist) ("instrumental".data) = true ∧
    coverCond (toLowerList c1CexTrack.name) (toLowerList c1CexTrack.artist) = false ∧
    score 2026 c1CexTrack ("Greatest Hits Song".data) ("The Instrumental Ensemble".data)
      = scoreWithoutCover 2026 c1CexTrack ("Greatest Hits Song".data)
          ("The Instrumental Ensemble".data) ∧
    score 2026 c1CexTrack ("Greatest Hits Song".data) ("The Instrumental Ensemble".data)
      ≠ scoreWithoutCover 2026 c1CexTrack ("Greatest Hits Song".data)
          ("The Instrumental Ensemble".data) - 30 := by
  have heq := score_coverCond_false 2026 c1CexTrack ("Greatest Hits Song".data)
    ("The Instrumental Ensemble".data) (by decide)
  refine ⟨by decide, by decide, heq, ?_⟩
  rw [heq]
  intro h
  linarith

/-- Witness for the amended claim C1: a candidate whose name contains both
"karaoke" and "cover" is penalised by exactly 30 (once). -/
theorem c1_witness :
    (∃ w ∈ [("cover".data), ("tribute".data), ("karaoke".data), ("instrumental".data)],
      hasSub (toLowerList c1WitTrack.name) w = true) ∧
    score 2026 c1WitTrack ("T".data) ("A".data)
      = scoreWithoutCover 2026 c1WitTrack ("T".data) ("A".data) - 30 :=
  ⟨by decide,
   (c1_cover_penalty_amended 2026 c1WitTrack ("T".data) ("A".data)).1
     (Or.inl (by decide))⟩

theorem matchLoop_eq_map (y : ℤ)
    (search : List Char → Except (List Char) (List Track)) :
    ∀ (fuel : ℕ) (ts : List MatchEntry), ts.length ≤ fuel →
      matchLoop y search fuel ts = ts.map (matchOne y search) := by
  intro fuel
  induction fuel with
  | zero =>
    intro ts h
    cases ts with
    | nil => rfl
    | cons t ts' => simp at h
  | succ f ih =>
    intro ts h
    cases ts with
    | nil => rfl
    | cons t ts' =>
      rw [matchLoop]
      rw [ih ((t :: ts').drop 10)
        (by simp only [List.length_drop, List.length_cons] at h ⊢; omega)]
      rw [← List.map_append, List.take_append_drop]

/-- Claim C2 (amended): a batch pass records every entry independently — the
result list is exactly the map of the per-entry matcher, so one entry's
transport error leaves all other entries' candidates and selected indices
unchanged and the loop runs to completion — and an entry whose search call
raises a transport error is recorded with zero candidates, a null selected
index, `hasMatch` false and a *null* error (the error message is swallowed
inside `searchTracks`, which catches the failure and resolves with `[]`, so
the handler's error-attaching catch never fires). -/
theorem c2_batch_isolation (y : ℤ)
    (search : List Char → Except (List Char) (List Track))
    (entries : List MatchEntry) :
    matchTracksBatches y search entries = entries.map (matchOne y search) ∧
    (∀ e msg, search e.searchQuery = Except.error msg →
      matchOne y search e =
        { position := e.position, title := e.title, artist := e.artist,
          searchQuery := e.searchQuery, spotifyMatches := [], selectedMatch := none,
          hasMatch := false, error := none }) := by
  constructor
  · exact matchLoop_eq_map y search entries.length entries le_rfl
  · intro e msg hmsg
    simp [matchOne, searchTracksM, hmsg]

/-- Counterexample to claim C2 as stated: in the 3-entry batch where entry
2's search call raises a transport error, entries 1 and 3 are fully
populated and entry 2 has `hasMatch` false — but its recorded error is
`none`, not a non-null message as the claim asserts. -/
theorem c2_counterexample :
    matchTracksBatches 2026 cexSearch [cexEntry1, cexEntry2, cexEntry3] =
      [{ position := 1, title := "T1".data, artist := "A1".data,
         searchQuery := "q1".data, spotifyMatches := [cexTrack],
         selectedMatch := some 0, hasMatch := true, error := none },
       { position := 2, title := "T2".data, artist := "A2".data,
         searchQuery := "q2".data, spotifyMatches := [],
         selectedMatch := none, hasMatch := false, error := none },
       { position := 3, title := "T3".data, artist := "A3".data,
         searchQuery := "q3".data, spotifyMatches := [cexTrack],
         selectedMatch := some 0, hasMatch := true, error := none }] := by
  decide

/-- Witness for the amended claim C2 at the concrete 3-entry batch. -/
theorem c2_witness :
    matchTracksBatches 2026 cexSearch [cexEntry1, cexEntry2, cexEntry3]
      = [cexEntry1, cexEntry2, cexEntry3].map (matchOne 2026 cexSearch) ∧
    matchOne 2026 cexSearch cexEntry2 =
      { position := cexEntry2.position, title := cexEntry2.title,
        artist := cexEntry2.artist, searchQuery := cexEntry2.searchQuery,
        spotifyMatches := [], selectedMatch := none, hasMatch := false,
        error := none } :=
  ⟨(c2_batch_isolation 2026 cexSearch [cexEntry1, cexEntry2, cexEntry3]).1,
   (c2_batch_isolation 2026 cexSearch [cexEntry1, cexEntry2, cexEntry3]).2
     cexEntry2 ("network error".data) (by decide)⟩

/-! ### The fallback-query rewrite (claims C8 and C10) -/

theorem dropLit_append (l r : List Char) : dropLit l (l ++ r) = some r := by
  induction l with
  | nil => rfl
  | cons c l' ih => simp [dropLit, ih]

theorem dropLit_sound : ∀ (l s r : List Char), dropLit l s = some r → s = l ++ r := by
  intro l
  induction l with
  | nil =>
    intro s r h
    simp [dropLit] at h
    rw [h]
    rfl
  | cons c l' ih =>
    intro s r h
    cases s with
    | nil => simp [dropLit] at h
    | cons d s' =>
      simp only [dropLit] at h
      by_cases hcd : c = d
      · rw [if_pos hcd] at h
        rw [← hcd, ih s' r h]
        rfl
      · rw [if_neg hcd] at h
        exact absurd h (by simp)

theorem takeWhile_notQuote_append (T rest : List Char) (h : '"' ∉ T) :
    (T ++ '"' :: rest).takeWhile notQuote = T ∧
    (T ++ '"' :: rest).dropWhile notQuote = '"' :: rest := by
  induction T with
  | nil => simp [List.takeWhile, List.dropWhile, notQuote]
  | cons c T' ih =>
    have hc : notQuote c = true := by
      simp only [notQuote]
      rw [if_neg (fun hcq => h (by rw [hcq]; exact List.mem_cons_self _ _))]
    have hmem : '"' ∉ T' := fun hm => h (List.mem_cons_of_mem c hm)
    obtain ⟨ih1, ih2⟩ := ih hmem
    constructor
    · rw [List.cons_append, List.takeWhile_cons, hc]
      simp [ih1]
    · rw [List.cons_append, List.dropWhile_cons, hc]
      simp [ih2]

theorem matchAt_complete (t a post : List Char) (ht : '"' ∉ t) (ha : '"' ∉ a) :
    matchTrackArtistAt (trackLit ++ t ++ artistLit ++ a ++ quoteLit ++ post)
      = some (t, a, post) := by
  have e1 : trackLit ++ t ++ artistLit ++ a ++ quoteLit ++ post
      = trackLit ++ (t ++ '"' :: ((" artist:\"".data) ++ (a ++ '"' :: post))) := by
    simp [trackLit, artistLit, quoteLit]
  have e2 : '"' :: ((" artist:\"".data) ++ (a ++ '"' :: post))
      = artistLit ++ (a ++ '"' :: post) := rfl
  unfold matchTrackArtistAt
  rw [e1, dropLit_append]
  simp only
  rw [(takeWhile_notQuote_append t _ ht).2, e2, dropLit_append]
  simp only
  rw [(takeWhile_notQuote_append a post ha).2,
    show dropLit quoteLit ('"' :: post) = some post from rfl]
  simp only
  rw [(takeWhile_notQuote_append a post ha).1, ← e2,
    (takeWhile_notQuote_append t _ ht).1]

theorem matchAt_nil : matchTrackArtistAt [] = none := rfl

theorem find_eq_of_matchAt (s t a post : List Char)
    (h : matchTrackArtistAt s = some (t, a, post)) :
    findTrackArtist s = some ([], t, a, post) := by
  cases s with
  | nil => rw [matchAt_nil] at h; exact absurd h (by simp)
  | cons c rest =>
    unfold findTrackArtist
    rw [h]

theorem find_isSome_append (pre : List Char) :
    ∀ s, (findTrackArtist s).isSome → (findTrackArtist (pre ++ s)).isSome := by
  induction pre with
  | nil => intro s h; exact h
  | cons c pre' ih =>
    intro s h
    rw [List.cons_append]
    unfold findTrackArtist
    cases hm : matchTrackArtistAt (c :: (pre' ++ s)) with
    | some r =>
      obtain ⟨t, a, post⟩ := r
      simp
    | none =>
      have h2 := ih s h
      cases hf : findTrackArtist (pre' ++ s) with
      | none => rw [hf] at h2; exact absurd h2 (by simp)
      | some r =>
        obtain ⟨p, t, a, post⟩ := r
        simp

/-- Completeness of the matcher: whenever the structured pattern occurs in
the string, the scan finds a match. -/
theorem find_complete (pre t a post : List Char) (ht : '"' ∉ t) (ha : '"' ∉ a) :
    (findTrackArtist (pre ++ trackLit ++ t ++ artistLit ++ a ++ quoteLit ++ post)).isSome := by
  have h1 := matchAt_complete t a post ht ha
  have h2 := find_eq_of_matchAt _ t a post h1
  have h3 : (findTrackArtist (trackLit ++ t ++ artistLit ++ a ++ quoteLit ++ post)).isSome := by
    rw [h2]; rfl
  have h4 := find_isSome_append pre _ h3
  rw [show pre ++ (trackLit ++ t ++ artistLit ++ a ++ quoteLit ++ post)
      = pre ++ trackLit ++ t ++ artistLit ++ a ++ quoteLit ++ post by simp] at h4
  exact h4

theorem mem_takeWhile_notQuote (s : List Char) : '"' ∉ s.takeWhile notQuote := by
  intro hmem
  have := List.mem_takeWhile_imp hmem
  simp [notQuote] at this

theorem matchAt_sound (s t a post : List Char)
    (h : matchTrackArtistAt s = some (t, a, post)) :
    s = trackLit ++ t ++ artistLit ++ a ++ quoteLit ++ post ∧ '"' ∉ t ∧ '"' ∉ a := by
  unfold matchTrackArtistAt at h
  cases h1 : dropLit trackLit s with
  | none => rw [h1] at h; exact absurd h (by simp)
  | some s1 =>
    rw [h1] at h
    simp only at h
    cases h2 : dropLit artistLit (s1.dropWhile notQuote) with
    | none => rw [h2] at h; exact absurd h (by simp)
    | some s2 =>
      rw [h2] at h
      simp only at h
      cases h3 : dropLit quoteLit (s2.dropWhile notQuote) with
      | none => rw [h3] at h; exact absurd h (by simp)
      | some s3 =>
        rw [h3] at h
        simp only [Option.some.injEq, Prod.mk.injEq] at h
        obtain ⟨het, hea, hep⟩ := h
        have hs : s = trackLit ++ s1 := dropLit_sound _ _ _ h1
        have hs1 : s1 = s1.takeWhile notQuote ++ s1.dropWhile notQuote :=
          (List.takeWhile_append_dropWhile notQuote s1).symm
        have hd1 : s1.dropWhile notQuote = artistLit ++ s2 := dropLit_sound _ _ _ h2
        have hs2 : s2 = s2.takeWhile notQuote ++ s2.dropWhile notQuote :=
          (List.takeWhile_append_dropWhile notQuote s2).symm
        have hd2 : s2.dropWhile notQuote = quoteLit ++ s3 := dropLit_sound _ _ _ h3
        refine ⟨?_, ?_, ?_⟩
        · rw [hs, hs1, hd1, hs2, hd2, het, hea, hep]
          simp
        · rw [← het]; exact mem_takeWhile_notQuote s1
        · rw [← hea]; exact mem_takeWhile_notQuote s2

theorem find_sound : ∀ (q pre t a post : List Char),
    findTrackArtist q = some (pre, t, a, post) →
      q = pre ++ trackLit ++ t ++ artistLit ++ a ++ quoteLit ++ post ∧
      '"' ∉ t ∧ '"' ∉ a := by
  intro q
  induction q with
  | nil => intro pre t a post h; simp [findTrackArtist] at h
  | cons c rest ih =>
    intro pre t a post h
    unfold findTrackArtist at h
    cases hm : matchTrackArtistAt (c :: rest) with
    | some r =>
      obtain ⟨t', a', post'⟩ := r
      rw [hm] at h
      simp only [Option.some.injEq, Prod.mk.injEq] at h
      obtain ⟨hpre, ht', ha', hpost'⟩ := h
      obtain ⟨heq, hqt, hqa⟩ := matchAt_sound _ _ _ _ hm
      rw [← hpre, ← ht', ← ha', ← hpost']
      exact ⟨by rw [heq]; simp, hqt, hqa⟩
    | none =>
      rw [hm] at h
      cases hf : findTrackArtist rest with
      | none => rw [hf] at h; simp at h
      | some r =>
        obtain ⟨p', t', a', post'⟩ := r
        rw [hf] at h
        simp only [Option.some.injEq, Prod.mk.injEq] at h
        obtain ⟨hpre, ht', ha', hpost'⟩ := h
        obtain ⟨heq, hqt, hqa⟩ := ih p' t' a' post' hf
        rw [← hpre, ← ht', ← ha', ← hpost']
        refine ⟨?_, hqt, hqa⟩
        rw [heq]
        simp [List.append_assoc]

/-- Claim C8: when the structured query `track:"<title>" artist:"<artist>"`
(with quote-free title and artist) returns no results, the fallback query
built by `searchTracks` is exactly `<title> <artist>` — the two captures
joined by a single space, with no field qualifiers. -/
theorem c8_fallback_query (T A : List Char) (hT : '"' ∉ T) (hA : '"' ∉ A) :
    simpleQueryOf (trackLit ++ T ++ artistLit ++ A ++ quoteLit)
      = T ++ (" ".data) ++ A := by
  have hmatch : matchTrackArtistAt (trackLit ++ T ++ artistLit ++ A ++ quoteLit)
      = some (T, A, []) := by
    have h := matchAt_complete T A [] hT hA
    rw [List.append_nil] at h
    exact h
  have hfind := find_eq_of_matchAt _ T A [] hmatch
  unfold simpleQueryOf
  rw [hfind]
  simp

/-- Witness for claim C8 at the specification's scenario:
`track:"Song" artist:"Band"` falls back to `Song Band`. -/
theorem c8_witness :
    ('"' ∉ ("Song".data)) ∧ ('"' ∉ ("Band".data)) ∧
    simpleQueryOf (trackLit ++ ("Song".data) ++ artistLit ++ ("Band".data) ++ quoteLit)
      = ("Song".data) ++ (" ".data) ++ ("Band".data) :=
  ⟨by decide, by decide,
   c8_fallback_query ("Song".data) ("Band".data) (by decide) (by decide)⟩

/-- Claim C10: for a query in which the structured pattern
`track:"<title>" artist:"<artist>"` does not occur, the computed fallback
query is the original query unchanged, so the fallback retry issues the
identical query a second time. -/
theorem c10_fallback_identity (q : List Char) (h : ¬ hasStructuredPattern q) :
    simpleQueryOf q = q := by
  unfold simpleQueryOf
  cases hf : findTrackArtist q with
  | none => rfl
  | some r =>
    obtain ⟨pre, t, a, post⟩ := r
    obtain ⟨heq, ht, ha⟩ := find_sound q pre t a post hf
    exact absurd ⟨pre, t, a, post, ht, ha, heq⟩ h

/-- Witness for claim C10 at a plain scraper-built query. -/
theorem c10_witness :
    ¬ hasStructuredPattern c10Query ∧ simpleQueryOf c10Query = c10Query := by
  have hnp : ¬ hasStructuredPattern c10Query := by
    rintro ⟨pre, t, a, post, ht, ha, heq⟩
    have h1 := find_complete pre t a post ht ha
    rw [← heq] at h1
    rw [show findTrackArtist c10Query = none from by decide] at h1
    simp at h1
  exact ⟨hnp, c10_fallback_identity c10Query hnp⟩
